import Mathlib

set_option maxRecDepth 2000

/-!
Verification of the model-pricing cost engine (`resources/model-pricing/price.go`)
and the HTTP retry wrapper (`services` retry file) of the code-switch repository,
shallowly embedded in Lean.

Modelling conventions:
* Go `float64` values are modelled as exact rationals (`ℚ`); all arithmetic in the
  engine is `+` and `*`, so no rounding behaviour is relied upon by any claim.
* Go `int` token counts are modelled as `Int` (the magnitudes involved never
  approach 64-bit overflow).
* Go `map[string]V` values are modelled as association lists `List (String × V)`
  with unique keys; the list order records the map's (unspecified) iteration
  order, so two legitimate executions of a `range` loop over the same map are
  modelled by two permutations of the same association list.
* Strings are ASCII in every model name and table key used by the program, so
  `strings.ToLower` is modelled by ASCII lower-casing and byte indexing agrees
  with character indexing.
-/

/-- ASCII lower-casing of one character, mirroring `strings.ToLower` on the
ASCII data used by the pricing engine. -/
def lowerChar (c : Char) : Char :=
  if 65 ≤ c.toNat ∧ c.toNat ≤ 90 then Char.ofNat (c.toNat + 32) else c

/-- `strings.ToLower` (ASCII fragment). -/
def goToLower (s : String) : String :=
  ⟨s.toList.map lowerChar⟩

/-- Does `sub` occur as a contiguous subsequence of `l`? -/
def subListScan (sub : List Char) : List Char → Bool
  | [] => sub.isEmpty
  | c :: rest => sub.isPrefixOf (c :: rest) || subListScan sub rest

/-- `strings.Contains s sub`. -/
def goContains (s sub : String) : Bool :=
  subListScan sub.toList s.toList

/-- `strings.HasPrefix s pre`. -/
def goHasPre (s pre : String) : Bool :=
  pre.toList.isPrefixOf s.toList

/-- `name[n:]` for ASCII strings: drop the first `n` characters. -/
def goDrop (s : String) (n : Nat) : String :=
  ⟨s.toList.drop n⟩

/-- `strings.TrimPrefix s pre` (case-sensitive). -/
def goTrimPre (s pre : String) : String :=
  if goHasPre s pre then goDrop s pre.toList.length else s

/-- The characters removed by `nameReplacer` in `price.go`:
`strings.NewReplacer("-", "", "_", "", ".", "", ":", "", "/", "", " ", "")`. -/
def separatorChars : List Char := ['-', '_', '.', ':', '/', ' ']

/-- `normalizeName` from `price.go`: lower-case, then delete separator characters. -/
def normalizeName (name : String) : String :=
  ⟨(goToLower name).toList.filter (fun c => !separatorChars.contains c)⟩

/-- Go map read `m[k]` (with its `ok` flag given by `Option.isSome`). -/
def mapGet? {α : Type} (m : List (String × α)) (k : String) : Option α :=
  (m.find? (fun kv => kv.1 == k)).map (fun kv => kv.2)

/-- Go map write `m[k] = v`: replace the existing binding for `k` or append one. -/
def mapSet {α : Type} (m : List (String × α)) (k : String) (v : α) : List (String × α) :=
  match m with
  | [] => [(k, v)]
  | kv :: rest => if kv.1 = k then (k, v) :: rest else kv :: mapSet rest k v

/-- `PricingEntry` from `price.go` (field-for-field). -/
structure PricingEntry where
  InputCostPerToken : ℚ := 0
  OutputCostPerToken : ℚ := 0
  CacheCreationInputTokenCost : ℚ := 0
  CacheCreationInputTokenCostAbove1Hr : ℚ := 0
  CacheCreationInputTokenCostAbove200 : ℚ := 0
  CacheReadInputTokenCost : ℚ := 0
  InputCostPerTokenAbove200k : ℚ := 0
  InputCostPerTokenAbove128k : ℚ := 0
  OutputCostPerTokenAbove200k : ℚ := 0
  deriving DecidableEq, Repr

/-- `CacheCreationDetail` from `price.go`. -/
structure CacheCreationDetail where
  Ephemeral5mTokens : Int := 0
  Ephemeral1hTokens : Int := 0
  deriving DecidableEq, Repr

/-- `UsageSnapshot` from `price.go`. -/
structure UsageSnapshot where
  InputTokens : Int := 0
  OutputTokens : Int := 0
  CacheCreateTokens : Int := 0
  CacheReadTokens : Int := 0
  CacheCreation : Option CacheCreationDetail := none
  deriving DecidableEq, Repr

/-- `CostBreakdown` from `price.go`; the zero value is the all-zero breakdown. -/
structure CostBreakdown where
  InputCost : ℚ := 0
  OutputCost : ℚ := 0
  CacheCreateCost : ℚ := 0
  CacheReadCost : ℚ := 0
  Ephemeral5mCost : ℚ := 0
  Ephemeral1hCost : ℚ := 0
  TotalCost : ℚ := 0
  HasPricing : Bool := false
  IsLongContext : Bool := false
  deriving DecidableEq, Repr

/-- `LongContextPricing` from `price.go`. -/
structure LongContextPricing where
  Input : ℚ := 0
  Output : ℚ := 0
  deriving DecidableEq, Repr

/-- `Service` from `price.go` (the four in-memory tables). -/
structure Service where
  pricingMap : List (String × PricingEntry)
  normalized : List (String × String)
  ephemeral1h : List (String × ℚ)
  longContexts : List (String × LongContextPricing)
  deriving DecidableEq, Repr

/-- `stripRegionPrefix` from `price.go`: the prefix test is on the lower-cased
name, the slice `name[len(prefix):]` is taken from the original name. -/
def stripRegion (name : String) : String :=
  match ["us.", "eu.", "apac."].find? (fun p => goHasPre (goToLower name) p) with
  | some p => goDrop name p.toList.length
  | none => name

/-- `ensureCachePricing` from `price.go` (value-level form of the in-place update). -/
def ensureCachePricing (entry : PricingEntry) : PricingEntry :=
  let e1 :=
    if entry.CacheCreationInputTokenCost = 0 ∧ entry.InputCostPerToken > 0 then
      { entry with CacheCreationInputTokenCost := entry.InputCostPerToken * 1.25 }
    else entry
  if e1.CacheReadInputTokenCost = 0 ∧ e1.InputCostPerToken > 0 then
    { e1 with CacheReadInputTokenCost := e1.InputCostPerToken * 0.1 }
  else e1

/-- `buildEphemeral1hPricing` from `price.go` (the literal table). -/
def buildEphemeral1hPricing : List (String × ℚ) :=
  [ ("claude-opus-4-1", 0.00003),
    ("claude-opus-4-1-20250805", 0.00003),
    ("claude-opus-4", 0.00003),
    ("claude-opus-4-20250514", 0.00003),
    ("claude-opus-4-5-20251101", 0.00003),
    ("claude-3-opus", 0.00003),
    ("claude-3-opus-latest", 0.00003),
    ("claude-3-opus-20240229", 0.00003),
    ("claude-3-5-sonnet", 0.000006),
    ("claude-3-5-sonnet-latest", 0.000006),
    ("claude-3-5-sonnet-20241022", 0.000006),
    ("claude-3-5-sonnet-20240620", 0.000006),
    ("claude-3-sonnet", 0.000006),
    ("claude-3-sonnet-20240307", 0.000006),
    ("claude-sonnet-3", 0.000006),
    ("claude-sonnet-3-5", 0.000006),
    ("claude-sonnet-3-7", 0.000006),
    ("claude-sonnet-4", 0.000006),
    ("claude-sonnet-4-20250514", 0.000006),
    ("claude-3-5-haiku", 0.0000016),
    ("claude-3-5-haiku-latest", 0.0000016),
    ("claude-3-5-haiku-20241022", 0.0000016),
    ("claude-3-haiku", 0.0000016),
    ("claude-3-haiku-20240307", 0.0000016),
    ("claude-haiku-3", 0.0000016),
    ("claude-haiku-3-5", 0.0000016) ]

/-- `buildLongContextPricing` from `price.go` (the literal table). -/
def buildLongContextPricing : List (String × LongContextPricing) :=
  [ ("claude-sonnet-4-20250514[1m]", { Input := 0.000006, Output := 0.0000225 }) ]

/-- The loop body of `NewServiceFromData`: insert the cache-adjusted entry into the
pricing map and register the normalized name if it is not already taken. -/
def serviceStep (acc : List (String × PricingEntry) × List (String × String))
    (kv : String × PricingEntry) :
    List (String × PricingEntry) × List (String × String) :=
  let item := ensureCachePricing kv.2
  let pricing := mapSet acc.1 kv.1 item
  let normalized :=
    if (mapGet? acc.2 (normalizeName kv.1)).isSome then acc.2
    else mapSet acc.2 (normalizeName kv.1) kv.1
  (pricing, normalized)

/-- `NewServiceFromData` from `price.go`, after JSON parsing: the argument is the
parsed raw map, presented in the order in which the Go `range` loop visits it. -/
def buildService (raw : List (String × PricingEntry)) : Service :=
  let maps := raw.foldl serviceStep ([], [])
  { pricingMap := maps.1
    normalized := maps.2
    ephemeral1h := buildEphemeral1hPricing
    longContexts := buildLongContextPricing }

/-- The match test of the substring-scan fallback in `getPricing`. -/
def scanPred (normTarget : String) (kv : String × PricingEntry) : Bool :=
  goContains (normalizeName kv.1) normTarget || goContains normTarget (normalizeName kv.1)

/-- The final `for key, entry := range s.pricingMap` loop of `getPricing`,
ranging over the map in the order given by `scan`. -/
def scanStep (scan : List (String × PricingEntry)) (normTarget : String) :
    Option PricingEntry × Bool :=
  match scan.find? (scanPred normTarget) with
  | some kv => (some kv.2, true)
  | none => (none, false)

/-- Steps 1-5 of `getPricing` (everything before the substring scan); `none`
means the function falls through to the scan. -/
def getPricingPre (s : Service) (model : String) : Option (Option PricingEntry × Bool) :=
  if model = "" then some (none, false)
  else
    match mapGet? s.pricingMap model with
    | some e => some (some e, true)
    | none =>
      match (if model = "gpt-5-codex" then mapGet? s.pricingMap "gpt-5" else none) with
      | some e => some (some e, true)
      | none =>
        match mapGet? s.pricingMap (stripRegion model) with
        | some e => some (some e, true)
        | none =>
          match mapGet? s.pricingMap (goTrimPre (stripRegion model) "anthropic.") with
          | some e => some (some e, true)
          | none =>
            match mapGet? s.normalized (normalizeName model) with
            | some key => some (mapGet? s.pricingMap key, true)
            | none => none

/-- `getPricing` from `price.go`, with the iteration order of the final map scan
made explicit as `scan`. -/
def getPricingAux (s : Service) (scan : List (String × PricingEntry)) (model : String) :
    Option PricingEntry × Bool :=
  match getPricingPre s model with
  | some r => r
  | none => scanStep scan (normalizeName model)

/-- `getPricing` with the canonical iteration order (the stored list order). -/
def Service.getPricing (s : Service) (model : String) : Option PricingEntry × Bool :=
  getPricingAux s s.pricingMap model

/-- `longContextTier` from `price.go`, with the iteration order of the
`for _, tier := range s.longContexts` fallback made explicit as `iter`. -/
def longContextTierAux (s : Service) (iter : List (String × LongContextPricing))
    (model : String) (usage : UsageSnapshot) : LongContextPricing × Bool :=
  let totalInput := usage.InputTokens + usage.CacheCreateTokens + usage.CacheReadTokens
  if goContains (goToLower model) "[1m]" = true ∧ totalInput > 200000 ∧
      0 < s.longContexts.length then
    match mapGet? s.longContexts model with
    | some tier => (tier, true)
    | none =>
      match iter with
      | kv :: _ => (kv.2, true)
      | [] => ({}, false)
  else ({}, false)

/-- `getEphemeral1hPricing` from `price.go`. -/
def getEphemeral1hPricing (s : Service) (model : String) : ℚ :=
  match mapGet? s.ephemeral1h model with
  | some price => price
  | none =>
    let name := goToLower model
    if goContains name "opus" then 0.00003
    else if goContains name "sonnet" then 0.000006
    else if goContains name "haiku" then 0.0000016
    else 0

/-- `resolveCacheTokens` from `price.go`. -/
def resolveCacheTokens (usage : UsageSnapshot) : Int × Int :=
  match usage.CacheCreation with
  | none => (usage.CacheCreateTokens, 0)
  | some detail =>
    let five := detail.Ephemeral5mTokens
    let one := detail.Ephemeral1hTokens
    let remaining := usage.CacheCreateTokens - five - one
    let five2 := if remaining > 0 then five + remaining else five
    let five3 := if five2 < 0 then 0 else five2
    let one2 := if one < 0 then 0 else one
    (five3, one2)

/-- `CalculateCost` from `price.go`, with the two map-iteration orders
(`scanP` for the pricing-map scan inside `getPricing`, `iterL` for the
long-context fallback) made explicit. -/
def CalculateCostAux (s : Service) (scanP : List (String × PricingEntry))
    (iterL : List (String × LongContextPricing)) (model : String)
    (usage : UsageSnapshot) : CostBreakdown :=
  if model = "" then {}
  else
    let pr := getPricingAux s scanP model
    if pr.1 = none ∧ goContains (goToLower model) "[1m]" = false then
      { HasPricing := pr.2 }
    else
      let lt := longContextTierAux s iterL model usage
      let entry := pr.1.getD {}
      let inputCost : ℚ :=
        if lt.2 then (usage.InputTokens : ℚ) * lt.1.Input
        else (usage.InputTokens : ℚ) * entry.InputCostPerToken
      let outputCost : ℚ :=
        if lt.2 then (usage.OutputTokens : ℚ) * lt.1.Output
        else (usage.OutputTokens : ℚ) * entry.OutputCostPerToken
      let ct := resolveCacheTokens usage
      let cache5mCost : ℚ := (ct.1 : ℚ) * entry.CacheCreationInputTokenCost
      let cache1hCost : ℚ := (ct.2 : ℚ) * getEphemeral1hPricing s model
      let cacheCreateCost := cache5mCost + cache1hCost
      let cacheReadCost : ℚ := (usage.CacheReadTokens : ℚ) * entry.CacheReadInputTokenCost
      let totalCost := inputCost + outputCost + cacheCreateCost + cacheReadCost
      { InputCost := inputCost
        OutputCost := outputCost
        CacheCreateCost := cacheCreateCost
        CacheReadCost := cacheReadCost
        Ephemeral5mCost := cache5mCost
        Ephemeral1hCost := cache1hCost
        TotalCost := totalCost
        HasPricing := pr.2 || decide (totalCost > 0)
        IsLongContext := lt.2 }

/-- `CalculateCost` with the canonical iteration orders (the stored list orders). -/
def Service.CalculateCost (s : Service) (model : String) (usage : UsageSnapshot) :
    CostBreakdown :=
  CalculateCostAux s s.pricingMap s.longContexts model usage

/-- Modelled from the spec (refinement side of claim C2): the ordered fallback
chain of the NameResolver exactly as the spec words it — six steps tried in
order, the first hit determines the result, and a miss of every step returns
not-found rather than an error. -/
def resolveSpec (s : Service) (model : String) : Option PricingEntry × Bool :=
  (List.findSome? id
    [ (mapGet? s.pricingMap model).map (fun e => (some e, true)),
      (if model = "gpt-5-codex" then mapGet? s.pricingMap "gpt-5" else none).map
        (fun e => (some e, true)),
      (mapGet? s.pricingMap (stripRegion model)).map (fun e => (some e, true)),
      (mapGet? s.pricingMap (goTrimPre (stripRegion model) "anthropic.")).map
        (fun e => (some e, true)),
      (mapGet? s.normalized (normalizeName model)).map
        (fun key => (mapGet? s.pricingMap key, true)),
      (s.pricingMap.find? (scanPred (normalizeName model))).map
        (fun kv => (some kv.2, true)) ]).getD (none, false)

/-! ## The HTTP retry wrapper (`services` retry file)

`xrequest.Response` is external to the repository; only the three fields the
wrapper inspects are modelled.  An error value is modelled by its message text.
A request-producing function is modelled as the sequence of outcomes of its
successive invocations; `time.Sleep` is modelled by recording the slept
durations (in seconds). -/

/-- The part of `xrequest.Response` inspected by the retry wrapper. -/
structure Response where
  statusCode : Int := 0
  contentType : String := ""
  body : String := ""
  deriving DecidableEq, Repr

/-- A `(resp, err)` pair returned by one invocation of a request function. -/
structure Outcome where
  resp : Option Response := none
  err : Option String := none
  deriving DecidableEq, Repr

/-- `RetryErrorType` from the retry file. -/
inductive RetryErrorType where
  | rateLimit
  | network
  | server
  | unknown
  deriving DecidableEq, Repr

/-- `MaxRetryAttempts = 3`. -/
def MaxRetryAttempts : Nat := 3

/-- `RetryInterval = 2 * time.Second`, in seconds. -/
def RetryInterval : Nat := 2

/-- `IsRateLimitError`: status 200, `text/event-stream` content type, and the
rate-limit marker in the body. -/
def IsRateLimitError (resp : Option Response) : Bool :=
  match resp with
  | none => false
  | some r =>
    r.statusCode == 200 &&
    goContains (goToLower r.contentType) "text/event-stream" &&
    goContains r.body "Rate limit error, please wait before trying again"

/-- The network-error substrings matched by `IsNetworkError`. -/
def networkErrorPatterns : List String :=
  [ "timeout", "connection refused", "connection reset", "no such host",
    "network is unreachable", "context deadline exceeded" ]

/-- `IsNetworkError`: the lower-cased error text contains one of the patterns. -/
def IsNetworkError (err : Option String) : Bool :=
  match err with
  | none => false
  | some msg => networkErrorPatterns.any (fun p => goContains (goToLower msg) p)

/-- `IsServerError`: status 502, 503 or 504. -/
def IsServerError (resp : Option Response) : Bool :=
  match resp with
  | none => false
  | some r => r.statusCode == 502 || r.statusCode == 503 || r.statusCode == 504

/-- `ShouldRetry`: network errors first, then response-based classification. -/
def ShouldRetry (o : Outcome) : Bool × RetryErrorType :=
  if IsNetworkError o.err then (true, .network)
  else
    match o.resp with
    | some _ =>
      if IsRateLimitError o.resp then (true, .rateLimit)
      else if IsServerError o.resp then (true, .server)
      else (false, .unknown)
    | none => (false, .unknown)

/-- The retry loop of `RetryableRequest`: `remaining` attempts left, the next
invocation is `f attempt`.  Returns the final `(resp, err)` pair, the number of
invocations performed by the loop, and the list of sleep durations (one sleep
of `RetryInterval` seconds before each retry). -/
def retryLoop (f : Nat → Outcome) : Nat → Nat → Outcome → Outcome × Nat × List Nat
  | 0, _, last => (last, 0, [])
  | remaining + 1, attempt, _ =>
    let o := f attempt
    if (ShouldRetry o).1 then
      let rest := retryLoop f remaining (attempt + 1) o
      (rest.1, rest.2.1 + 1, RetryInterval :: rest.2.2)
    else (o, 1, [RetryInterval])

/-- `RetryableRequest` from the retry file: invoke once, then retry up to
`MaxRetryAttempts` times while the outcome is classified retryable.  Returns
the final `(resp, err)` pair, the total number of invocations, and the sleeps. -/
def RetryableRequest (f : Nat → Outcome) : Outcome × Nat × List Nat :=
  let first := f 0
  if (ShouldRetry first).1 then
    let rest := retryLoop f MaxRetryAttempts 1 first
    (rest.1, rest.2.1 + 1, rest.2.2)
  else (first, 1, [])

/-- The projection of a pricing entry to the fields `CalculateCost` can ever
read; the five tiered fields are reset to zero. -/
def projEntry (e : PricingEntry) : PricingEntry :=
  { InputCostPerToken := e.InputCostPerToken
    OutputCostPerToken := e.OutputCostPerToken
    CacheCreationInputTokenCost := e.CacheCreationInputTokenCost
    CacheReadInputTokenCost := e.CacheReadInputTokenCost }

/-- `projEntry` applied to the value of a key/entry pair. -/
def projKV (kv : String × PricingEntry) : String × PricingEntry :=
  (kv.1, projEntry kv.2)

/-- `projEntry` applied throughout a service's pricing map. -/
def projService (s : Service) : Service :=
  { pricingMap := s.pricingMap.map projKV
    normalized := s.normalized
    ephemeral1h := s.ephemeral1h
    longContexts := s.longContexts }

/-! ## Concrete data used in witnesses and counterexamples -/

/-- A pricing entry with input cost 1. -/
def entOne : PricingEntry := { InputCostPerToken := 1 }

/-- A pricing entry with input cost 2. -/
def entTwo : PricingEntry := { InputCostPerToken := 2 }

/-- A usage snapshot of one input token. -/
def usageOne : UsageSnapshot := { InputTokens := 1 }

/-- A service whose two keys both match the substring scan for target "a". -/
def svcScan : Service := buildService [("ab", entOne), ("abc", entTwo)]

/-- Two raw tables holding the same map: the keys "a-b" and "a.b" collide on
the normalized name "ab"; the two lists are the two iteration orders. -/
def rawDash : List (String × PricingEntry) := [("a-b", entOne), ("a.b", entTwo)]

/-- The second iteration order of the same raw map as `rawDash`. -/
def rawDot : List (String × PricingEntry) := [("a.b", entTwo), ("a-b", entOne)]

/-- A one-entry raw table. -/
def raw3 : List (String × PricingEntry) := [("m", entTwo)]

/-- A two-entry raw table without normalized-name collisions. -/
def rawTwo : List (String × PricingEntry) := [("m", entOne), ("n", entTwo)]

/-- The other iteration order of `rawTwo`. -/
def rawTwoRev : List (String × PricingEntry) := [("n", entTwo), ("m", entOne)]

/-- A usage snapshot crossing the long-context threshold by one token. -/
def usage1m : UsageSnapshot := { InputTokens := 200001 }

/-- A usage snapshot with only aggregate cache-creation tokens. -/
def usageCache : UsageSnapshot := { CacheCreateTokens := 10 }

/-- The usage snapshot of the spec's scenario A. -/
def usageAB : UsageSnapshot := { InputTokens := 100, OutputTokens := 50 }

/-- An entry differing from `entOne` only in a tiered field. -/
def entTierA : PricingEntry := { InputCostPerToken := 1, InputCostPerTokenAbove200k := 7 }

/-- Raw table with the tiered field set. -/
def rawTierA : List (String × PricingEntry) := [("m", entTierA)]

/-- Raw table with the tiered field cleared. -/
def rawTierB : List (String × PricingEntry) := [("m", entOne)]

/-- A 503 response outcome, classified as a retryable server error. -/
def outcome503 : Outcome := { resp := some { statusCode := 503 } }

/-- A request function that fails with 503 on every invocation. -/
def fAll503 : Nat → Outcome := fun _ => outcome503

/-! ## Association-list lemmas -/

theorem mapGet?_nil {α : Type} (k : String) : mapGet? ([] : List (String × α)) k = none := rfl

theorem mapGet?_cons {α : Type} (kv : String × α) (m : List (String × α)) (k : String) :
    mapGet? (kv :: m) k = if kv.1 = k then some kv.2 else mapGet? m k := by
  simp only [mapGet?, List.find?_cons]
  by_cases h : kv.1 = k
  · simp [h]
  · have hb : (kv.1 == k) = false := by simp [h]
    simp [hb, h]

theorem mapGet?_eq_none_of_not_mem {α : Type} {m : List (String × α)} {k : String}
    (h : k ∉ m.map Prod.fst) : mapGet? m k = none := by
  induction m with
  | nil => rfl
  | cons kv t ih =>
    simp only [List.map_cons, List.mem_cons, not_or] at h
    rw [mapGet?_cons, if_neg (fun he => h.1 he.symm)]
    exact ih h.2

theorem mapGet?_mapSet {α : Type} (m : List (String × α)) (k k' : String) (v : α) :
    mapGet? (mapSet m k v) k' = if k' = k then some v else mapGet? m k' := by
  induction m with
  | nil =>
    show mapGet? [(k, v)] k' = _
    rw [mapGet?_cons]
    by_cases h : k' = k
    · simp [h]
    · rw [if_neg (fun he => h he.symm), if_neg h, mapGet?_nil]
  | cons kv t ih =>
    simp only [mapSet]
    by_cases h : kv.1 = k
    · subst h
      rw [if_pos rfl, mapGet?_cons]
      by_cases h2 : k' = kv.1
      · rw [if_pos h2.symm, if_pos h2]
      · rw [if_neg (fun he => h2 he.symm), if_neg h2, mapGet?_cons,
          if_neg (fun he => h2 he.symm)]
    · rw [if_neg h, mapGet?_cons, ih, mapGet?_cons]
      by_cases h2 : kv.1 = k'
      · have hne : ¬ k' = k := fun he => h (h2.trans he)
        rw [if_pos h2, if_neg hne, if_pos h2]
      · rw [if_neg h2, if_neg h2]

theorem countP_le_one_of_map_nodup {α : Type} (f : String × α → String)
    {m : List (String × α)} (h : (m.map f).Nodup) (k : String) :
    m.countP (fun kv => f kv == k) ≤ 1 := by
  induction m with
  | nil => simp
  | cons kv t ih =>
    simp only [List.map_cons, List.nodup_cons] at h
    obtain ⟨hk, ht⟩ := h
    by_cases hx : f kv == k
    · have hz : t.countP (fun kv => f kv == k) = 0 := by
        rw [List.countP_eq_zero]
        intro a ha hpa
        exact hk (by
          have h1 : f a = k := by simpa using hpa
          have h2 : f kv = k := by simpa using hx
          rw [h2, ← h1]
          exact List.mem_map_of_mem f ha)
      simp [List.countP_cons, hx, hz]
    · simp only [List.countP_cons, hx, if_false]
      simpa using ih ht

theorem find?_eq_of_perm_of_countP_le_one {α : Type} (p : α → Bool) :
    ∀ {l1 l2 : List α}, l1.Perm l2 → l1.countP p ≤ 1 → l1.find? p = l2.find? p := by
  intro l1 l2 h
  induction h with
  | nil => intro _; rfl
  | cons x h ih =>
    intro hc
    by_cases hx : p x
    · simp [List.find?_cons_of_pos, hx]
    · rw [List.find?_cons_of_neg _ hx, List.find?_cons_of_neg _ hx]
      exact ih (by simpa [List.countP_cons, hx] using hc)
  | swap x y l =>
    intro hc
    by_cases hx : p x <;> by_cases hy : p y
    · exfalso
      simp [List.countP_cons, hx, hy] at hc
    · simp [List.find?_cons_of_pos, List.find?_cons_of_neg, hx, hy]
    · simp [List.find?_cons_of_pos, List.find?_cons_of_neg, hx, hy]
    · simp [List.find?_cons_of_neg, hx, hy]
  | trans h1 _ ih1 ih2 =>
    intro hc
    exact (ih1 hc).trans (ih2 (by rw [← h1.countP_eq]; exact hc))

theorem mapGet?_perm {α : Type} {m1 m2 : List (String × α)} (h : m1.Perm m2)
    (hnd : (m1.map Prod.fst).Nodup) (k : String) : mapGet? m1 k = mapGet? m2 k := by
  unfold mapGet?
  rw [find?_eq_of_perm_of_countP_le_one _ h (countP_le_one_of_map_nodup Prod.fst hnd k)]

/-! ## Characterization of the table construction -/

theorem buildFold_fst_lookup :
    ∀ (raw : List (String × PricingEntry)) (p : List (String × PricingEntry))
      (n : List (String × String)) (k : String), (raw.map Prod.fst).Nodup →
      mapGet? (raw.foldl serviceStep (p, n)).1 k =
        (match mapGet? raw k with
         | some e => some (ensureCachePricing e)
         | none => mapGet? p k) := by
  intro raw
  induction raw with
  | nil => intro p n k _; rfl
  | cons kv t ih =>
    intro p n k hnd
    simp only [List.map_cons, List.nodup_cons] at hnd
    obtain ⟨hk, ht⟩ := hnd
    simp only [List.foldl_cons, serviceStep]
    rw [ih _ _ k ht, mapGet?_cons]
    by_cases h : kv.1 = k
    · subst h
      have hnone : mapGet? t kv.1 = none := by
        apply mapGet?_eq_none_of_not_mem
        exact hk
      rw [hnone, if_pos rfl]
      simp only []
      rw [mapGet?_mapSet, if_pos rfl]
    · rw [if_neg h]
      cases hmt : mapGet? t k with
      | some e => rfl
      | none =>
        simp only []
        rw [mapGet?_mapSet, if_neg (fun he => h he.symm)]

theorem buildFold_snd_lookup :
    ∀ (raw : List (String × PricingEntry)) (p : List (String × PricingEntry))
      (n : List (String × String)) (nk : String),
      ((raw.map fun kv => normalizeName kv.1).Nodup) →
      (∀ kv ∈ raw, mapGet? n (normalizeName kv.1) = none) →
      mapGet? (raw.foldl serviceStep (p, n)).2 nk =
        (match raw.find? (fun kv => normalizeName kv.1 == nk) with
         | some kv => some kv.1
         | none => mapGet? n nk) := by
  intro raw
  induction raw with
  | nil => intro p n nk _ _; rfl
  | cons kv t ih =>
    intro p n nk hnd habs
    simp only [List.map_cons, List.nodup_cons] at hnd
    obtain ⟨hk, ht⟩ := hnd
    have hn0 : mapGet? n (normalizeName kv.1) = none := habs kv (List.mem_cons_self kv t)
    simp only [List.foldl_cons, serviceStep, hn0, Option.isSome_none, Bool.false_eq_true,
      if_false]
    have habs2 : ∀ kv' ∈ t, mapGet? (mapSet n (normalizeName kv.1) kv.1)
        (normalizeName kv'.1) = none := by
      intro kv' hm
      rw [mapGet?_mapSet]
      have hne : ¬ normalizeName kv'.1 = normalizeName kv.1 := by
        intro he
        exact hk (by rw [← he]; exact List.mem_map_of_mem (fun kv => normalizeName kv.1) hm)
      rw [if_neg hne]
      exact habs kv' (List.mem_cons_of_mem kv hm)
    rw [ih _ _ nk ht habs2, List.find?_cons]
    by_cases h : normalizeName kv.1 = nk
    · have hb : (normalizeName kv.1 == nk) = true := by simp [h]
      rw [hb]
      have hnone : t.find? (fun kv => normalizeName kv.1 == nk) = none := by
        rw [List.find?_eq_none]
        intro x hx hpx
        have hx1 : normalizeName x.1 = nk := by simpa using hpx
        exact hk (by rw [h, ← hx1]; exact List.mem_map_of_mem _ hx)
      rw [hnone]
      simp only []
      rw [mapGet?_mapSet, if_pos h.symm]
    · have hb : (normalizeName kv.1 == nk) = false := by simp [h]
      rw [hb]
      cases hft : t.find? (fun kv => normalizeName kv.1 == nk) with
      | some kv' => rfl
      | none =>
        simp only []
        rw [mapGet?_mapSet, if_neg (fun he => h he.symm)]

theorem buildService_pricing_lookup (raw : List (String × PricingEntry))
    (h : (raw.map Prod.fst).Nodup) (k : String) :
    mapGet? (buildService raw).pricingMap k = (mapGet? raw k).map ensureCachePricing := by
  show mapGet? (raw.foldl serviceStep ([], [])).1 k = _
  rw [buildFold_fst_lookup raw [] [] k h]
  cases hm : mapGet? raw k with
  | some e => rfl
  | none => rfl

theorem buildService_normalized_lookup (raw : List (String × PricingEntry))
    (h : (raw.map fun kv => normalizeName kv.1).Nodup) (nk : String) :
    mapGet? (buildService raw).normalized nk =
      (raw.find? (fun kv => normalizeName kv.1 == nk)).map Prod.fst := by
  show mapGet? (raw.foldl serviceStep ([], [])).2 nk = _
  rw [buildFold_snd_lookup raw [] [] nk h (fun kv _ => rfl)]
  cases hm : raw.find? (fun kv => normalizeName kv.1 == nk) with
  | some kv => rfl
  | none => rfl

theorem buildService_ephemeral1h (raw : List (String × PricingEntry)) :
    (buildService raw).ephemeral1h = buildEphemeral1hPricing := rfl

theorem buildService_longContexts (raw : List (String × PricingEntry)) :
    (buildService raw).longContexts = buildLongContextPricing := rfl

/-- C2: for every non-empty model string, `getPricing` tries the six spec steps
in order, the first hit determines the result, and a total miss returns
not-found rather than an error. -/
theorem claim2_resolution_order (s : Service) (model : String) (h : model ≠ "") :
    s.getPricing model = resolveSpec s model := by
  unfold Service.getPricing getPricingAux getPricingPre resolveSpec scanStep
  rw [if_neg h]
  cases h1 : mapGet? s.pricingMap model with
  | some e => simp [List.findSome?]
  | none =>
    cases h2 : (if model = "gpt-5-codex" then mapGet? s.pricingMap "gpt-5" else none) with
    | some e => simp [List.findSome?]
    | none =>
      cases h3 : mapGet? s.pricingMap (stripRegion model) with
      | some e => simp [List.findSome?]
      | none =>
        cases h4 : mapGet? s.pricingMap (goTrimPre (stripRegion model) "anthropic.") with
        | some e => simp [List.findSome?]
        | none =>
          cases h5 : mapGet? s.normalized (normalizeName model) with
          | some key => simp [List.findSome?]
          | none =>
            cases h6 : s.pricingMap.find? (scanPred (normalizeName model)) with
            | some kv => simp [List.findSome?]
            | none => simp [List.findSome?]

/-! ## Helper facts about `CalculateCost` -/

theorem ne_empty_of_contains_1m {model : String}
    (h : goContains (goToLower model) "[1m]" = true) : model ≠ "" := by
  intro he
  subst he
  exact absurd h (by decide)

theorem getPricingAux_none_of_not_found (s : Service) (scan : List (String × PricingEntry))
    (model : String) (h : (getPricingAux s scan model).2 = false) :
    (getPricingAux s scan model).1 = none := by
  unfold getPricingAux getPricingPre scanStep at h ⊢
  by_cases hm : model = ""
  · simp [hm]
  · rw [if_neg hm] at h ⊢
    cases h1 : mapGet? s.pricingMap model with
    | some e => rw [h1] at h; exact absurd h (by simp)
    | none =>
      rw [h1] at h
      cases h2 : (if model = "gpt-5-codex" then mapGet? s.pricingMap "gpt-5" else none) with
      | some e => rw [h2] at h; exact absurd h (by simp)
      | none =>
        rw [h2] at h
        cases h3 : mapGet? s.pricingMap (stripRegion model) with
        | some e => rw [h3] at h; exact absurd h (by simp)
        | none =>
          rw [h3] at h
          cases h4 : mapGet? s.pricingMap (goTrimPre (stripRegion model) "anthropic.") with
          | some e => rw [h4] at h; exact absurd h (by simp)
          | none =>
            rw [h4] at h
            cases h5 : mapGet? s.normalized (normalizeName model) with
            | some key => rw [h5] at h; exact absurd h (by simp)
            | none =>
              rw [h5] at h
              cases h6 : scan.find? (scanPred (normalizeName model)) with
              | some kv => rw [h6] at h; exact absurd h (by simp)
              | none => rfl

/-- C1: for a `[1m]`-tagged model and a service with a non-empty long-context
table, the tier applies exactly when `InputTokens + CacheCreateTokens +
CacheReadTokens > 200000`; at or below the threshold the base per-token rates
of the resolved (or zero) entry are used, above it the tier rates are used,
the tier being the exact-model entry when present and otherwise one of the
available tier entries. -/
theorem claim1_long_context_boundary (s : Service) (model : String) (usage : UsageSnapshot)
    (h1 : goContains (goToLower model) "[1m]" = true)
    (h2 : s.longContexts ≠ []) :
    ((s.CalculateCost model usage).IsLongContext =
        decide (usage.InputTokens + usage.CacheCreateTokens + usage.CacheReadTokens > 200000))
    ∧ (usage.InputTokens + usage.CacheCreateTokens + usage.CacheReadTokens ≤ 200000 →
        (s.CalculateCost model usage).InputCost =
          (usage.InputTokens : ℚ) * ((s.getPricing model).1.getD {}).InputCostPerToken ∧
        (s.CalculateCost model usage).OutputCost =
          (usage.OutputTokens : ℚ) * ((s.getPricing model).1.getD {}).OutputCostPerToken)
    ∧ (usage.InputTokens + usage.CacheCreateTokens + usage.CacheReadTokens > 200000 →
        ∃ tier : LongContextPricing,
          (mapGet? s.longContexts model = some tier ∨
            (mapGet? s.longContexts model = none ∧ ∃ k, (k, tier) ∈ s.longContexts)) ∧
          (s.CalculateCost model usage).InputCost = (usage.InputTokens : ℚ) * tier.Input ∧
          (s.CalculateCost model usage).OutputCost = (usage.OutputTokens : ℚ) * tier.Output) := by
  have hm : model ≠ "" := ne_empty_of_contains_1m h1
  have hc : ¬((getPricingAux s s.pricingMap model).1 = none ∧
      goContains (goToLower model) "[1m]" = false) := by
    rintro ⟨-, hf⟩
    rw [h1] at hf
    exact absurd hf (by simp)
  by_cases ht : usage.InputTokens + usage.CacheCreateTokens + usage.CacheReadTokens > 200000
  · have hcond : goContains (goToLower model) "[1m]" = true ∧
        usage.InputTokens + usage.CacheCreateTokens + usage.CacheReadTokens > 200000 ∧
        0 < s.longContexts.length := ⟨h1, ht, List.length_pos.mpr h2⟩
    cases hx : mapGet? s.longContexts model with
    | some tier =>
      have hlt : longContextTierAux s s.longContexts model usage = (tier, true) := by
        unfold longContextTierAux
        rw [if_pos hcond, hx]
      refine ⟨?_, ?_, ?_⟩
      · simp only [Service.CalculateCost, CalculateCostAux, if_neg hm, if_neg hc, hlt]
        simp [decide_eq_true ht]
      · intro hle
        exact absurd hle (not_le.mpr ht)
      · intro _
        refine ⟨tier, Or.inl rfl, ?_, ?_⟩ <;>
          simp [Service.CalculateCost, CalculateCostAux, if_neg hm, if_neg hc, hlt]
    | none =>
      cases hl : s.longContexts with
      | nil => exact absurd hl h2
      | cons kv rest =>
        have hlt : longContextTierAux s s.longContexts model usage = (kv.2, true) := by
          unfold longContextTierAux
          rw [if_pos hcond, hx, hl]
        refine ⟨?_, ?_, ?_⟩
        · simp only [Service.CalculateCost, CalculateCostAux, if_neg hm, if_neg hc, hlt]
          simp [decide_eq_true ht]
        · intro hle
          exact absurd hle (not_le.mpr ht)
        · intro _
          refine ⟨kv.2, Or.inr ⟨rfl, kv.1, List.mem_cons_self kv rest⟩, ?_, ?_⟩ <;>
            simp [Service.CalculateCost, CalculateCostAux, if_neg hm, if_neg hc, hlt]
  · have hlt : longContextTierAux s s.longContexts model usage = ({}, false) := by
      unfold longContextTierAux
      rw [if_neg (fun hcond => ht hcond.2.1)]
    refine ⟨?_, ?_, ?_⟩
    · simp only [Service.CalculateCost, CalculateCostAux, if_neg hm, if_neg hc, hlt]
      simp [decide_eq_false ht]
    · intro _
      constructor <;>
        simp [Service.CalculateCost, Service.getPricing, CalculateCostAux, if_neg hm,
          if_neg hc, hlt]
    · intro hgt
      exact absurd hgt ht

/-- C4: the cache-creation token split used by `CalculateCost` — without a
detailed split everything is 5-minute; with a split the 1-hour count is
clamped at 0 and the 5-minute count absorbs any positive remainder, clamped
at 0 — and the ephemeral costs are the split counts times the stored
cache-creation rate and the model's ephemeral-1h rate, summing to
`cache_create_cost`. -/
theorem claim4_cache_split (s : Service) (model : String) (usage : UsageSnapshot)
    (hm : model ≠ "")
    (hp : (s.getPricing model).1.isSome = true ∨ goContains (goToLower model) "[1m]" = true) :
    (usage.CacheCreation = none → resolveCacheTokens usage = (usage.CacheCreateTokens, 0))
    ∧ (∀ d, usage.CacheCreation = some d →
        resolveCacheTokens usage =
          (max 0 (d.Ephemeral5mTokens +
              max 0 (usage.CacheCreateTokens - d.Ephemeral5mTokens - d.Ephemeral1hTokens)),
           max 0 d.Ephemeral1hTokens))
    ∧ (s.CalculateCost model usage).Ephemeral5mCost =
        ((resolveCacheTokens usage).1 : ℚ) *
          ((s.getPricing model).1.getD {}).CacheCreationInputTokenCost
    ∧ (s.CalculateCost model usage).Ephemeral1hCost =
        ((resolveCacheTokens usage).2 : ℚ) * getEphemeral1hPricing s model
    ∧ (s.CalculateCost model usage).CacheCreateCost =
        (s.CalculateCost model usage).Ephemeral5mCost +
          (s.CalculateCost model usage).Ephemeral1hCost := by
  have hc : ¬((getPricingAux s s.pricingMap model).1 = none ∧
      goContains (goToLower model) "[1m]" = false) := by
    rcases hp with hp | hp
    · rintro ⟨hn, -⟩
      rw [Service.getPricing, hn] at hp
      exact absurd hp (by simp)
    · rintro ⟨-, hf⟩
      rw [hp] at hf
      exact absurd hf (by simp)
  refine ⟨?_, ?_, ?_, ?_, ?_⟩
  · intro hnone
    simp [resolveCacheTokens, hnone]
  · intro d hd
    simp only [resolveCacheTokens, hd]
    rw [Prod.mk.injEq]
    constructor <;> (simp only [max_def] ; split_ifs <;> omega)
  · simp only [Service.CalculateCost, Service.getPricing, CalculateCostAux, if_neg hm,
      if_neg hc]
  · simp only [Service.CalculateCost, Service.getPricing, CalculateCostAux, if_neg hm,
      if_neg hc]
  · simp only [Service.CalculateCost, Service.getPricing, CalculateCostAux, if_neg hm,
      if_neg hc]

/-- C5: with a non-empty model, a resolution miss on a model without the `[1m]`
marker returns the all-zero breakdown with `has_pricing = false`; in every
other case `has_pricing` is the resolution flag OR-ed with strict positivity
of the computed total cost. -/
theorem claim5_has_pricing (s : Service) (model : String) (usage : UsageSnapshot)
    (hm : model ≠ "") :
    ((s.getPricing model).2 = false → goContains (goToLower model) "[1m]" = false →
      s.CalculateCost model usage = {})
    ∧ (((s.getPricing model).2 = true ∨ goContains (goToLower model) "[1m]" = true) →
      (s.CalculateCost model usage).HasPricing =
        ((s.getPricing model).2 || decide ((s.CalculateCost model usage).TotalCost > 0))) := by
  constructor
  · intro hf h1m
    have hn := getPricingAux_none_of_not_found s s.pricingMap model hf
    have hpos : (getPricingAux s s.pricingMap model).1 = none ∧
        goContains (goToLower model) "[1m]" = false := ⟨hn, h1m⟩
    simp only [Service.CalculateCost, CalculateCostAux, if_neg hm, if_pos hpos]
    rw [show (getPricingAux s s.pricingMap model).2 = false from hf]
  · intro hp
    by_cases hcond : (getPricingAux s s.pricingMap model).1 = none ∧
        goContains (goToLower model) "[1m]" = false
    · have hfound : (getPricingAux s s.pricingMap model).2 = true := by
        rcases hp with hp | hp
        · exact hp
        · rw [hp] at hcond
          exact absurd hcond.2 (by simp)
      simp only [Service.CalculateCost, Service.getPricing, CalculateCostAux, if_neg hm,
        if_pos hcond, hfound]
      simp
    · simp only [Service.CalculateCost, Service.getPricing, CalculateCostAux, if_neg hm,
        if_neg hcond]

theorem ensureCachePricing_spec (o : PricingEntry) :
    (o.CacheCreationInputTokenCost = 0 → o.InputCostPerToken > 0 →
      (ensureCachePricing o).CacheCreationInputTokenCost = o.InputCostPerToken * 1.25)
    ∧ (o.CacheReadInputTokenCost = 0 → o.InputCostPerToken > 0 →
      (ensureCachePricing o).CacheReadInputTokenCost = o.InputCostPerToken * 0.1)
    ∧ (o.CacheCreationInputTokenCost ≠ 0 → o.CacheReadInputTokenCost ≠ 0 →
      ensureCachePricing o = o)
    ∧ (o.InputCostPerToken = 0 → ensureCachePricing o = o) := by
  simp only [ensureCachePricing]
  split_ifs with hA hB hB
  · exact ⟨fun _ _ => rfl, fun _ _ => rfl, fun h1 _ => absurd hA.1 h1,
      fun h1 => absurd hA.2 (by rw [h1]; exact lt_irrefl 0)⟩
  · exact ⟨fun _ _ => rfl, fun h1 h2 => absurd ⟨h1, h2⟩ hB, fun h1 _ => absurd hA.1 h1,
      fun h1 => absurd hA.2 (by rw [h1]; exact lt_irrefl 0)⟩
  · exact ⟨fun h1 h2 => absurd ⟨h1, h2⟩ hA, fun _ _ => rfl, fun _ h2 => absurd hB.1 h2,
      fun h1 => absurd hB.2 (by rw [h1]; exact lt_irrefl 0)⟩
  · exact ⟨fun h1 h2 => absurd ⟨h1, h2⟩ hA, fun h1 h2 => absurd ⟨h1, h2⟩ hB,
      fun _ _ => rfl, fun _ => rfl⟩

/-- C3: every entry stored by table construction is the cache-adjusted form of
the parsed raw entry — a zero cache-creation rate with positive input cost is
derived as `input × 1.25`, a zero cache-read rate as `input × 0.1`, entries
with explicit non-zero cache rates or zero input cost are stored unchanged —
and `CalculateCost` only ever multiplies by the stored rates, never
re-deriving them. -/
theorem claim3_cache_derivation :
    (∀ (raw : List (String × PricingEntry)) (key : String) (e : PricingEntry),
      (raw.map Prod.fst).Nodup →
      mapGet? (buildService raw).pricingMap key = some e →
      ∃ o, mapGet? raw key = some o ∧ e = ensureCachePricing o ∧
        (o.CacheCreationInputTokenCost = 0 → o.InputCostPerToken > 0 →
          e.CacheCreationInputTokenCost = o.InputCostPerToken * 1.25) ∧
        (o.CacheReadInputTokenCost = 0 → o.InputCostPerToken > 0 →
          e.CacheReadInputTokenCost = o.InputCostPerToken * 0.1) ∧
        (o.CacheCreationInputTokenCost ≠ 0 → o.CacheReadInputTokenCost ≠ 0 → e = o) ∧
        (o.InputCostPerToken = 0 → e = o))
    ∧ (∀ (s : Service) (model : String) (usage : UsageSnapshot),
        (s.getPricing model).1.isSome = true →
        (s.CalculateCost model usage).Ephemeral5mCost =
          ((resolveCacheTokens usage).1 : ℚ) *
            ((s.getPricing model).1.getD {}).CacheCreationInputTokenCost ∧
        (s.CalculateCost model usage).CacheReadCost =
          (usage.CacheReadTokens : ℚ) *
            ((s.getPricing model).1.getD {}).CacheReadInputTokenCost) := by
  constructor
  · intro raw key e hnd hlook
    rw [buildService_pricing_lookup raw hnd key] at hlook
    cases hm : mapGet? raw key with
    | none => rw [hm] at hlook; exact absurd hlook (by simp)
    | some o =>
      rw [hm] at hlook
      have he : ensureCachePricing o = e := by simpa using hlook
      subst he
      exact ⟨o, rfl, rfl, (ensureCachePricing_spec o).1, (ensureCachePricing_spec o).2.1,
        (ensureCachePricing_spec o).2.2.1, (ensureCachePricing_spec o).2.2.2⟩
  · intro s model usage hp
    have hm : model ≠ "" := by
      intro he
      subst he
      exact absurd hp (by simp [Service.getPricing, getPricingAux, getPricingPre])
    have hc : ¬((getPricingAux s s.pricingMap model).1 = none ∧
        goContains (goToLower model) "[1m]" = false) := by
      rintro ⟨hn, -⟩
      rw [Service.getPricing, hn] at hp
      exact absurd hp (by simp)
    constructor <;>
      simp only [Service.CalculateCost, Service.getPricing, CalculateCostAux, if_neg hm,
        if_neg hc]

/-- C6 counterexample: on a service whose keys "ab" and "abc" both match the
substring scan for the normalized target "a", two legitimate iteration orders
of the pricing map (Go leaves the `range` order unspecified) make `getPricing`
return different entries, so two consecutive calls need not agree. -/
theorem claim6_counterexample :
    svcScan.pricingMap.reverse.Perm svcScan.pricingMap
    ∧ getPricingAux svcScan svcScan.pricingMap "a" ≠
        getPricingAux svcScan svcScan.pricingMap.reverse "a" := by
  constructor
  · exact (svcScan.pricingMap.reverse_perm)
  · with_unfolding_all decide

/-- C6 (amended): resolution is order-independent — hence two consecutive
calls agree — whenever it succeeds before the substring scan, and also when
at most one pricing-map key matches the scan; only a multi-match substring
scan can differ between iteration orders. -/
theorem claim6_amended_deterministic (s : Service)
    (scan1 scan2 : List (String × PricingEntry)) (model : String)
    (h1 : scan1.Perm s.pricingMap) (h2 : scan2.Perm s.pricingMap)
    (h : (getPricingPre s model).isSome = true ∨
      s.pricingMap.countP (scanPred (normalizeName model)) ≤ 1) :
    getPricingAux s scan1 model = getPricingAux s scan2 model := by
  unfold getPricingAux
  cases hpre : getPricingPre s model with
  | some r => rfl
  | none =>
    rcases h with h | h
    · rw [hpre] at h
      exact absurd h (by simp)
    · have hcount : scan1.countP (scanPred (normalizeName model)) ≤ 1 := by
        rw [h1.countP_eq]
        exact h
      unfold scanStep
      rw [find?_eq_of_perm_of_countP_le_one _ (h1.trans h2.symm) hcount]

/-- Congruence for `CalculateCost`: two services that resolve the model before
the substring scan to the same result and share the ephemeral-1h and
long-context tables compute the same breakdown. -/
theorem calc_congr (s1 s2 : Service) (model : String) (usage : UsageSnapshot)
    (hpre : getPricingPre s1 model = getPricingPre s2 model)
    (hsome : (getPricingPre s1 model).isSome = true)
    (heph : s1.ephemeral1h = s2.ephemeral1h)
    (hlong : s1.longContexts = s2.longContexts) :
    s1.CalculateCost model usage = s2.CalculateCost model usage := by
  obtain ⟨r, hr⟩ : ∃ r, getPricingPre s1 model = some r := Option.isSome_iff_exists.mp hsome
  have hg1 : getPricingAux s1 s1.pricingMap model = r := by
    unfold getPricingAux
    rw [hr]
  have hg2 : getPricingAux s2 s2.pricingMap model = r := by
    unfold getPricingAux
    rw [← hpre, hr]
  have hephe : getEphemeral1hPricing s1 model = getEphemeral1hPricing s2 model := by
    unfold getEphemeral1hPricing
    rw [heph]
  have hlt : longContextTierAux s1 s1.longContexts model usage =
      longContextTierAux s2 s2.longContexts model usage := by
    unfold longContextTierAux
    rw [hlong]
  simp only [Service.CalculateCost, CalculateCostAux, hg1, hg2, hephe, hlt]

/-- C7 counterexample: two invocations of table construction on the same raw
map (equal bytes), differing only in the unspecified map-iteration order,
disagree on the normalized index at the collision "ab" and on a subsequent
`CalculateCost` call resolved through that index. -/
theorem claim7_counterexample :
    rawDash.Perm rawDot
    ∧ (rawDash.map Prod.fst).Nodup
    ∧ mapGet? (buildService rawDash).normalized "ab" ≠
        mapGet? (buildService rawDot).normalized "ab"
    ∧ (buildService rawDash).CalculateCost "a b" usageOne ≠
        (buildService rawDot).CalculateCost "a b" usageOne := by
  refine ⟨by decide, by decide, by decide, by with_unfolding_all decide⟩

/-- C7 (amended): two runs of table construction on equal bytes produce
extensionally identical pricing maps and identical ephemeral-1h and
long-context tables; when no two keys collide on a normalized name, the
normalized indexes are also identical and every `CalculateCost` call whose
model resolves before the substring scan agrees between the two instances.
On a normalized-name collision the winning canonical key depends on the
unspecified map iteration order. -/
theorem claim7_amended_construction (raw1 raw2 : List (String × PricingEntry))
    (hperm : raw1.Perm raw2) (hnd : (raw1.map Prod.fst).Nodup) :
    (∀ k, mapGet? (buildService raw1).pricingMap k = mapGet? (buildService raw2).pricingMap k)
    ∧ (buildService raw1).ephemeral1h = (buildService raw2).ephemeral1h
    ∧ (buildService raw1).longContexts = (buildService raw2).longContexts
    ∧ ((raw1.map fun kv => normalizeName kv.1).Nodup →
        (∀ nk, mapGet? (buildService raw1).normalized nk =
            mapGet? (buildService raw2).normalized nk)
        ∧ ∀ model usage, (getPricingPre (buildService raw1) model).isSome = true →
            (buildService raw1).CalculateCost model usage =
              (buildService raw2).CalculateCost model usage) := by
  have hnd2 : (raw2.map Prod.fst).Nodup := (hperm.map Prod.fst).nodup hnd
  have hP : ∀ k, mapGet? (buildService raw1).pricingMap k =
      mapGet? (buildService raw2).pricingMap k := by
    intro k
    rw [buildService_pricing_lookup raw1 hnd k, buildService_pricing_lookup raw2 hnd2 k,
      mapGet?_perm hperm hnd k]
  refine ⟨hP, rfl, rfl, ?_⟩
  intro hnorm
  have hnorm2 : (raw2.map fun kv => normalizeName kv.1).Nodup :=
    (hperm.map fun kv => normalizeName kv.1).nodup hnorm
  have hN : ∀ nk, mapGet? (buildService raw1).normalized nk =
      mapGet? (buildService raw2).normalized nk := by
    intro nk
    rw [buildService_normalized_lookup raw1 hnorm nk,
      buildService_normalized_lookup raw2 hnorm2 nk,
      find?_eq_of_perm_of_countP_le_one _ hperm
        (countP_le_one_of_map_nodup (fun kv => normalizeName kv.1) hnorm nk)]
  refine ⟨hN, ?_⟩
  intro model usage hsome
  have hpre : getPricingPre (buildService raw1) model =
      getPricingPre (buildService raw2) model := by
    unfold getPricingPre
    simp only [hP, hN]
  exact calc_congr _ _ model usage hpre hsome rfl rfl

/-- C8 counterexample: the model "opus-sonnet" is absent from the ephemeral-1h
table and its name contains "sonnet", yet its ephemeral-1h rate is 0.00003
(the "opus" family match fires first), not 0.000006 as the claim states. -/
theorem claim8_counterexample :
    mapGet? (buildService []).ephemeral1h "opus-sonnet" = none
    ∧ goContains (goToLower "opus-sonnet") "sonnet" = true
    ∧ getEphemeral1hPricing (buildService []) "opus-sonnet" = 0.00003
    ∧ (0.00003 : ℚ) ≠ 0.000006 := by
  have h1 : mapGet? (buildService []).ephemeral1h "opus-sonnet" = none := by decide
  have h2 : goContains (goToLower "opus-sonnet") "opus" = true := by decide
  refine ⟨h1, by decide, ?_, by norm_num⟩
  simp [getEphemeral1hPricing, h1, h2]

/-- C8 (amended): the ephemeral-1h rate is the exact-match table entry when
present; otherwise the family fallback checks "opus" (3e-5), then "sonnet"
(6e-6), then "haiku" (1.6e-6), else 0 — so an unlisted model containing
"sonnet" prices at 6e-6 only when its name does not also contain "opus". -/
theorem claim8_amended_ephemeral_rate (s : Service) (model : String) :
    (mapGet? s.ephemeral1h model = none → goContains (goToLower model) "sonnet" = true →
      goContains (goToLower model) "opus" = false →
      getEphemeral1hPricing s model = 0.000006)
    ∧ (∀ p, mapGet? s.ephemeral1h model = some p → getEphemeral1hPricing s model = p)
    ∧ (mapGet? s.ephemeral1h model = none → goContains (goToLower model) "opus" = true →
      getEphemeral1hPricing s model = 0.00003)
    ∧ (mapGet? s.ephemeral1h model = none → goContains (goToLower model) "opus" = false →
      goContains (goToLower model) "sonnet" = false →
      goContains (goToLower model) "haiku" = true →
      getEphemeral1hPricing s model = 0.0000016)
    ∧ (mapGet? s.ephemeral1h model = none → goContains (goToLower model) "opus" = false →
      goContains (goToLower model) "sonnet" = false →
      goContains (goToLower model) "haiku" = false →
      getEphemeral1hPricing s model = 0) := by
  refine ⟨?_, ?_, ?_, ?_, ?_⟩
  · intro h0 hs ho
    simp [getEphemeral1hPricing, h0, hs, ho]
  · intro p hp
    simp [getEphemeral1hPricing, hp]
  · intro h0 ho
    simp [getEphemeral1hPricing, h0, ho]
  · intro h0 ho hs hh
    simp [getEphemeral1hPricing, h0, ho, hs, hh]
  · intro h0 ho hs hh
    simp [getEphemeral1hPricing, h0, ho, hs, hh]

/-! ## The retry wrapper -/

theorem retryLoop_spec (f : Nat → Outcome) :
    ∀ (r attempt : Nat) (last : Outcome), 1 ≤ r →
      1 ≤ (retryLoop f r attempt last).2.1
      ∧ (retryLoop f r attempt last).2.1 ≤ r
      ∧ (retryLoop f r attempt last).2.2 =
          List.replicate (retryLoop f r attempt last).2.1 RetryInterval
      ∧ (∀ i, attempt ≤ i → i < attempt + (retryLoop f r attempt last).2.1 - 1 →
          (ShouldRetry (f i)).1 = true)
      ∧ (retryLoop f r attempt last).1 = f (attempt + (retryLoop f r attempt last).2.1 - 1)
      ∧ ((ShouldRetry (retryLoop f r attempt last).1).1 = true →
          (retryLoop f r attempt last).2.1 = r) := by
  intro r
  induction r with
  | zero => intro attempt last h; exact absurd h (by omega)
  | succ r' ih =>
    intro attempt last _
    cases hb : (ShouldRetry (f attempt)).1 with
    | false =>
      have hres : retryLoop f (r' + 1) attempt last = (f attempt, 1, [RetryInterval]) := by
        simp [retryLoop, hb]
      rw [hres]
      dsimp only
      refine ⟨le_refl 1, by omega, rfl, ?_, ?_, ?_⟩
      · intro i hi1 hi2
        omega
      · exact congrArg f (by omega)
      · intro hret
        rw [hb] at hret
        exact absurd hret (by simp)
    | true =>
      cases r' with
      | zero =>
        have hres : retryLoop f 1 attempt last = (f attempt, 1, [RetryInterval]) := by
          simp [retryLoop, hb]
        rw [hres]
        dsimp only
        refine ⟨le_refl 1, le_refl 1, rfl, ?_, ?_, fun _ => rfl⟩
        · intro i hi1 hi2
          omega
        · exact congrArg f (by omega)
      | succ r'' =>
        obtain ⟨ih1, ih2, ih3, ih4, ih5, ih6⟩ := ih (attempt + 1) (f attempt) (by omega)
        have hres : retryLoop f (r'' + 1 + 1) attempt last =
            ((retryLoop f (r'' + 1) (attempt + 1) (f attempt)).1,
             (retryLoop f (r'' + 1) (attempt + 1) (f attempt)).2.1 + 1,
             RetryInterval :: (retryLoop f (r'' + 1) (attempt + 1) (f attempt)).2.2) := by
          simp [retryLoop, hb]
        rw [hres]
        dsimp only
        refine ⟨by omega, by omega, ?_, ?_, ?_, ?_⟩
        · show RetryInterval :: (retryLoop f (r'' + 1) (attempt + 1) (f attempt)).2.2 = _
          rw [ih3, List.replicate_succ]
        · intro i hi1 hi2
          rcases Nat.eq_or_lt_of_le hi1 with he | hlt
          · rw [← he]
            exact hb
          · exact ih4 i (by omega) (by omega)
        · show (retryLoop f (r'' + 1) (attempt + 1) (f attempt)).1 = _
          rw [ih5]
          congr 1
          omega
        · intro hret
          rw [ih6 hret]

/-- C9: `RetryableRequest` invokes the request function once and, while the
outcome is classified retryable (network error, rate-limit, or 502/503/504
server error), retries at most `MaxRetryAttempts = 3` more times, sleeping
`RetryInterval = 2` seconds before each retry; it returns the pair produced
by the first non-retryable invocation, or the last pair after exhausting all
retries. -/
theorem claim9_retry_wrapper (f : Nat → Outcome) :
    (∀ o : Outcome, (ShouldRetry o).1 =
        (IsNetworkError o.err || IsRateLimitError o.resp || IsServerError o.resp))
    ∧ 1 ≤ (RetryableRequest f).2.1
    ∧ (RetryableRequest f).2.1 ≤ 1 + MaxRetryAttempts
    ∧ (RetryableRequest f).2.2 =
        List.replicate ((RetryableRequest f).2.1 - 1) RetryInterval
    ∧ (∀ i, i + 1 < (RetryableRequest f).2.1 → (ShouldRetry (f i)).1 = true)
    ∧ (RetryableRequest f).1 = f ((RetryableRequest f).2.1 - 1)
    ∧ ((ShouldRetry (RetryableRequest f).1).1 = true →
        (RetryableRequest f).2.1 = 1 + MaxRetryAttempts) := by
  constructor
  · intro o
    cases hr : o.resp with
    | none =>
      cases hn : IsNetworkError o.err <;>
        simp [ShouldRetry, hn, hr, IsRateLimitError, IsServerError]
    | some r =>
      cases hn : IsNetworkError o.err <;>
        cases hrl : IsRateLimitError (some r) <;>
          cases hsv : IsServerError (some r) <;>
            simp [ShouldRetry, hn, hr, hrl, hsv]
  · cases hb0 : (ShouldRetry (f 0)).1 with
    | false =>
      have hres : RetryableRequest f = (f 0, 1, []) := by
        simp [RetryableRequest, hb0]
      rw [hres]
      dsimp only
      refine ⟨le_refl 1, by simp [MaxRetryAttempts], rfl, ?_, rfl, ?_⟩
      · intro i hi
        exact absurd hi (by omega)
      · intro hret
        show (1 : Nat) = 1 + MaxRetryAttempts
        rw [hb0] at hret
        exact absurd hret (by simp)
    | true =>
      obtain ⟨s1, s2, s3, s4, s5, s6⟩ :=
        retryLoop_spec f MaxRetryAttempts 1 (f 0) (by simp [MaxRetryAttempts])
      have hres : RetryableRequest f = ((retryLoop f MaxRetryAttempts 1 (f 0)).1,
          (retryLoop f MaxRetryAttempts 1 (f 0)).2.1 + 1,
          (retryLoop f MaxRetryAttempts 1 (f 0)).2.2) := by
        simp [RetryableRequest, hb0]
      rw [hres]
      dsimp only
      refine ⟨by omega, ?_, ?_, ?_, ?_, ?_⟩
      · show (retryLoop f MaxRetryAttempts 1 (f 0)).2.1 + 1 ≤ 1 + MaxRetryAttempts
        omega
      · show (retryLoop f MaxRetryAttempts 1 (f 0)).2.2 = _
        rw [s3]
        exact congrArg (fun n => List.replicate n RetryInterval) (by omega)
      · intro i hi
        rcases Nat.eq_zero_or_pos i with hz | hpos
        · subst hz
          exact hb0
        · exact s4 i (by omega) (by omega)
      · show (retryLoop f MaxRetryAttempts 1 (f 0)).1 = _
        rw [s5]
        congr 1
        omega
      · intro hret
        show (retryLoop f MaxRetryAttempts 1 (f 0)).2.1 + 1 = 1 + MaxRetryAttempts
        rw [s6 hret, Nat.add_comm]

/-! ## The tiered fields never influence a cost (C10) -/

theorem ensureCachePricing_proj (e : PricingEntry) :
    ensureCachePricing (projEntry e) = projEntry (ensureCachePricing e) := by
  simp only [ensureCachePricing, projEntry]
  split_ifs <;> rfl

theorem mapSet_map_proj (m : List (String × PricingEntry)) (k : String) (v : PricingEntry) :
    mapSet (m.map projKV) k (projEntry v) = (mapSet m k v).map projKV := by
  induction m with
  | nil => rfl
  | cons kv t ih =>
    simp only [List.map_cons, mapSet, projKV]
    by_cases h : kv.1 = k
    · simp [h, projKV]
    · simp only [h, if_false, List.map_cons, ih]
      rfl

theorem buildFold_map_proj :
    ∀ (raw : List (String × PricingEntry)) (p : List (String × PricingEntry))
      (n : List (String × String)),
      (raw.map projKV).foldl serviceStep (p.map projKV, n) =
        ((raw.foldl serviceStep (p, n)).1.map projKV, (raw.foldl serviceStep (p, n)).2) := by
  intro raw
  induction raw with
  | nil => intro p n; rfl
  | cons kv t ih =>
    intro p n
    simp only [List.map_cons, List.foldl_cons, serviceStep, projKV]
    rw [ensureCachePricing_proj, mapSet_map_proj]
    exact ih (mapSet p kv.1 (ensureCachePricing kv.2)) _

theorem buildService_map_proj (raw : List (String × PricingEntry)) :
    buildService (raw.map projKV) = projService (buildService raw) := by
  unfold buildService projService
  have h := buildFold_map_proj raw [] []
  simp only [List.map_nil] at h
  rw [h]

theorem mapGet?_map_proj (m : List (String × PricingEntry)) (k : String) :
    mapGet? (m.map projKV) k = (mapGet? m k).map projEntry := by
  induction m with
  | nil => rfl
  | cons kv t ih =>
    simp only [List.map_cons, projKV, mapGet?_cons, ih]
    by_cases h : kv.1 = k
    · simp [h]
    · simp [h]

theorem find?_scanPred_map (m : List (String × PricingEntry)) (nt : String) :
    (m.map projKV).find? (scanPred nt) = (m.find? (scanPred nt)).map projKV := by
  induction m with
  | nil => rfl
  | cons kv t ih =>
    simp only [List.map_cons, List.find?_cons]
    have hp : scanPred nt (projKV kv) = scanPred nt kv := rfl
    rw [hp]
    cases h : scanPred nt kv
    · simp [ih]
    · simp

theorem getPricingPre_proj (s : Service) (model : String) :
    getPricingPre (projService s) model =
      (getPricingPre s model).map (fun r => (r.1.map projEntry, r.2)) := by
  unfold getPricingPre
  dsimp only [projService]
  by_cases hm : model = ""
  · simp [hm]
  · rw [if_neg hm, if_neg hm, mapGet?_map_proj]
    cases h1 : mapGet? s.pricingMap model with
    | some e => simp
    | none =>
      simp only [Option.map_none']
      by_cases hgc : model = "gpt-5-codex"
      · rw [if_pos hgc, if_pos hgc, mapGet?_map_proj]
        cases h2 : mapGet? s.pricingMap "gpt-5" with
        | some e => simp
        | none =>
          simp only [Option.map_none']
          rw [mapGet?_map_proj]
          cases h3 : mapGet? s.pricingMap (stripRegion model) with
          | some e => simp
          | none =>
            simp only [Option.map_none']
            rw [mapGet?_map_proj]
            cases h4 : mapGet? s.pricingMap (goTrimPre (stripRegion model) "anthropic.") with
            | some e => simp
            | none =>
              simp only [Option.map_none']
              cases h5 : mapGet? s.normalized (normalizeName model) with
              | some key => simp [mapGet?_map_proj]
              | none => simp
      · rw [if_neg hgc, if_neg hgc]
        dsimp only
        rw [mapGet?_map_proj]
        cases h3 : mapGet? s.pricingMap (stripRegion model) with
        | some e => simp
        | none =>
          simp only [Option.map_none']
          rw [mapGet?_map_proj]
          cases h4 : mapGet? s.pricingMap (goTrimPre (stripRegion model) "anthropic.") with
          | some e => simp
          | none =>
            simp only [Option.map_none']
            cases h5 : mapGet? s.normalized (normalizeName model) with
            | some key => simp [mapGet?_map_proj]
            | none => simp

theorem getPricingAux_proj (s : Service) (model : String) :
    getPricingAux (projService s) (projService s).pricingMap model =
      ((getPricingAux s s.pricingMap model).1.map projEntry,
        (getPricingAux s s.pricingMap model).2) := by
  unfold getPricingAux
  rw [getPricingPre_proj]
  cases hpre : getPricingPre s model with
  | some r => rfl
  | none =>
    show scanStep (s.pricingMap.map projKV) (normalizeName model) = _
    unfold scanStep
    rw [find?_scanPred_map]
    cases h : s.pricingMap.find? (scanPred (normalizeName model)) with
    | some kv => rfl
    | none => rfl

theorem calc_proj_invariant (s : Service) (model : String) (usage : UsageSnapshot) :
    (projService s).CalculateCost model usage = s.CalculateCost model usage := by
  rcases hA : getPricingAux s s.pricingMap model with ⟨o, b⟩
  have hax : getPricingAux (projService s) (projService s).pricingMap model =
      (o.map projEntry, b) := by
    rw [getPricingAux_proj, hA]
  cases o with
  | none =>
    simp only [Service.CalculateCost, CalculateCostAux, hA, hax, Option.map_none']
    rfl
  | some e =>
    simp only [Service.CalculateCost, CalculateCostAux, hA, hax, Option.map_some']
    rfl

/-- C10: the five tiered fields (`cache_creation_input_token_cost_above_1hr`,
`cache_creation_input_token_cost_above_200k_tokens`,
`input_cost_per_token_above_128k_tokens`, `input_cost_per_token_above_200k_tokens`,
`output_cost_per_token_above_200k_tokens`) never influence any cost: services
built from raw tables that agree outside those five fields (same keys in the
same iteration order) return identical breakdowns for every model and usage. -/
theorem claim10_tiered_fields_unused (raw1 raw2 : List (String × PricingEntry))
    (h : raw1.map projKV = raw2.map projKV) (model : String) (usage : UsageSnapshot) :
    (buildService raw1).CalculateCost model usage =
      (buildService raw2).CalculateCost model usage := by
  calc (buildService raw1).CalculateCost model usage
      = (projService (buildService raw1)).CalculateCost model usage :=
        (calc_proj_invariant _ _ _).symm
    _ = (buildService (raw1.map projKV)).CalculateCost model usage := by
        rw [buildService_map_proj]
    _ = (buildService (raw2.map projKV)).CalculateCost model usage := by rw [h]
    _ = (projService (buildService raw2)).CalculateCost model usage := by
        rw [buildService_map_proj]
    _ = (buildService raw2).CalculateCost model usage := calc_proj_invariant _ _ _

/-! ## Witnesses -/

theorem claim1_witness :
    ((buildService []).CalculateCost "x[1m]" usage1m).IsLongContext = true := by
  have h := claim1_long_context_boundary (buildService []) "x[1m]" usage1m (by decide) (by decide)
  rw [h.1]
  decide

theorem claim2_witness :
    (buildService []).getPricing "m" = resolveSpec (buildService []) "m" :=
  claim2_resolution_order (buildService []) "m" (by decide)

theorem claim3_witness :
    (raw3.map Prod.fst).Nodup
    ∧ mapGet? (buildService raw3).pricingMap "m" = some (ensureCachePricing entTwo)
    ∧ (∃ o, mapGet? raw3 "m" = some o ∧ ensureCachePricing entTwo = ensureCachePricing o
        ∧ (o.CacheCreationInputTokenCost = 0 → o.InputCostPerToken > 0 →
            (ensureCachePricing entTwo).CacheCreationInputTokenCost =
              o.InputCostPerToken * 1.25)
        ∧ (o.CacheReadInputTokenCost = 0 → o.InputCostPerToken > 0 →
            (ensureCachePricing entTwo).CacheReadInputTokenCost = o.InputCostPerToken * 0.1)
        ∧ (o.CacheCreationInputTokenCost ≠ 0 → o.CacheReadInputTokenCost ≠ 0 →
            ensureCachePricing entTwo = o)
        ∧ (o.InputCostPerToken = 0 → ensureCachePricing entTwo = o))
    ∧ (((buildService raw3).CalculateCost "m" usageOne).Ephemeral5mCost =
          ((resolveCacheTokens usageOne).1 : ℚ) *
            (((buildService raw3).getPricing "m").1.getD {}).CacheCreationInputTokenCost
        ∧ ((buildService raw3).CalculateCost "m" usageOne).CacheReadCost =
          (usageOne.CacheReadTokens : ℚ) *
            (((buildService raw3).getPricing "m").1.getD {}).CacheReadInputTokenCost) :=
  ⟨by decide, by with_unfolding_all decide,
    claim3_cache_derivation.1 raw3 "m" (ensureCachePricing entTwo) (by decide)
      (by with_unfolding_all decide),
    claim3_cache_derivation.2 (buildService raw3) "m" usageOne
      (by with_unfolding_all decide)⟩

theorem claim4_witness :
    ((buildService []).CalculateCost "x[1m]" usageCache).CacheCreateCost =
      ((buildService []).CalculateCost "x[1m]" usageCache).Ephemeral5mCost +
        ((buildService []).CalculateCost "x[1m]" usageCache).Ephemeral1hCost :=
  (claim4_cache_split (buildService []) "x[1m]" usageCache (by decide)
    (Or.inr (by decide))).2.2.2.2

theorem claim5_witness :
    (buildService []).CalculateCost "unknown-model-xyz" usageAB = {} :=
  (claim5_has_pricing (buildService []) "unknown-model-xyz" usageAB (by decide)).1
    (by decide) (by decide)

theorem claim6_witness :
    getPricingAux svcScan svcScan.pricingMap "ab" =
      getPricingAux svcScan svcScan.pricingMap.reverse "ab" :=
  claim6_amended_deterministic svcScan svcScan.pricingMap svcScan.pricingMap.reverse "ab"
    (List.Perm.refl _) (svcScan.pricingMap.reverse_perm)
    (Or.inl (by with_unfolding_all decide))

theorem claim7_witness :
    mapGet? (buildService rawTwo).pricingMap "m" =
      mapGet? (buildService rawTwoRev).pricingMap "m"
    ∧ (buildService rawTwo).CalculateCost "m" usageOne =
      (buildService rawTwoRev).CalculateCost "m" usageOne := by
  have h := claim7_amended_construction rawTwo rawTwoRev (by decide) (by decide)
  exact ⟨h.1 "m", (h.2.2.2 (by decide)).2 "m" usageOne (by with_unfolding_all decide)⟩

theorem claim8_witness :
    getEphemeral1hPricing (buildService []) "sonnet-x" = 0.000006 :=
  (claim8_amended_ephemeral_rate (buildService []) "sonnet-x").1 (by decide) (by decide)
    (by decide)

theorem claim9_witness :
    (RetryableRequest fAll503).2.1 = 1 + MaxRetryAttempts :=
  (claim9_retry_wrapper fAll503).2.2.2.2.2.2 (by decide)

theorem claim10_witness :
    (buildService rawTierA).CalculateCost "m" usageOne =
      (buildService rawTierB).CalculateCost "m" usageOne :=
  claim10_tiered_fields_unused rawTierA rawTierB (by with_unfolding_all decide) "m" usageOne
